import Mathlib

/-!
# Verification of the `FourierComponents` extractor
  (`src/feets/extractors/ext_fourier_components.py`)

Shallow embedding of the iterative multi-frequency harmonic decomposition.
The three external numerical collaborators (the Lomb-Scargle periodogram
`lscargle`, `scipy.signal.find_peaks` and `scipy.optimize.curve_fit`) are
modelled as an opaque-to-the-algorithm bundle of functions (`Collab`), and
the numpy scalar primitives (`np.sqrt`, `np.arctan`, `np.sin`, `np.cos`,
`np.pi`) as a bundle `NumLib`, so that every definition below is computable
and can be evaluated on concrete rational inputs.  The algorithm itself -
peak selection, SNR gating, the per-slot four-harmonic fit-and-subtract
loop, range classification, phase normalization and result assembly - is
translated line by line from the source.

Numbers are taken in an arbitrary linear ordered field `K` (instantiated
with `ℚ` in concrete witnesses, standing in for IEEE floats).
-/

namespace Feets

variable {K : Type} [LinearOrderedField K]

/-- The numpy scalar primitives used by the source
(`np.sqrt`, `np.arctan`, `np.sin`, `np.cos`, `np.pi`). -/
structure NumLib (K : Type) where
  sqrt : K → K
  arctan : K → K
  sin : K → K
  cos : K → K
  pi : K

/-- The three external numerical collaborators of `_components`:
* `lscargle time magnitude` returns the periodogram `(frequency, power)`
  (the third component of the Python return value is discarded by the source);
* `findPeaks power` returns the indices of the local maxima of `power`
  (`scipy.signal.find_peaks`);
* `curveFit jf time series` returns the best-fit coefficients `(a, b, c)` of
  the model `a*sin(2*pi*jf*t) + b*cos(2*pi*jf*t) + c` fitted to
  `(time, series)` (`scipy.optimize.curve_fit` applied to the closure made
  by `_yfunc_maker(jf)`; the closure is fully determined by `jf`, `time`
  and the series, so the black-box fitter is parametrized by those). -/
structure Collab (K : Type) where
  lscargle : List K → List K → List K × List K
  findPeaks : List K → List ℕ
  curveFit : K → List K → List K → K × K × K

/-- Well-formedness of the peak finder: `scipy.signal.find_peaks` only
returns valid indices into its argument. -/
def FindPeaksWF (C : Collab K) : Prop :=
  ∀ power : List K, ∀ i ∈ C.findPeaks power, i < power.length

/-- `np.argmax` on a numeric array: index of the first occurrence of the
maximum.  (The source only applies it to nonempty arrays; on `[]` we return
`0`, a case never reached by the guarded call sites.) -/
def npArgmaxAux : List K → ℕ → K → ℕ → ℕ
  | [], bi, _, _ => bi
  | x :: xs, bi, bv, ci =>
    if bv < x then npArgmaxAux xs ci x (ci + 1) else npArgmaxAux xs bi bv (ci + 1)

/-- `np.argmax` over a numeric list (first index attaining the maximum). -/
def npArgmax : List K → ℕ
  | [] => 0
  | x :: xs => npArgmaxAux xs 0 x 1

/-- `np.argmax` over a boolean array: index of the first `true`; numpy
returns `0` when no entry is `true`. -/
def npArgmaxBool (l : List Bool) : ℕ :=
  if l.any id then l.findIdx id else 0

/-- Comparison `snr < threshold` where `snr` may be `np.inf`
(encoded as `none`): `np.inf < t` is `False`. -/
def npLtB (x : Option K) (y : K) : Bool :=
  match x with
  | none => false
  | some v => decide (v < y)

/-- `peaks[np.argmax(power[peaks])]`: the peak index with the largest power
(first occurrence on ties), as computed at both call sites in the source. -/
def selPeak (peaks : List ℕ) (power : List K) : ℕ :=
  peaks.getD (npArgmax (peaks.map (fun k => power.getD k 0))) 0

/-- The harmonic model `_model`:
`a * np.sin(2*np.pi*Freq*x) + b * np.cos(2*np.pi*Freq*x) + c`. -/
def model (N : NumLib K) (a b c Freq x : K) : K :=
  a * N.sin (2 * N.pi * Freq * x) + b * N.cos (2 * N.pi * Freq * x) + c

/-- The helper `calculate_snr(frequency, power, fmax_idx, window_size)`:
window of bins whose frequency is within `window_size` of the peak
frequency (both ends inclusive), delete the entry at
`np.argmax(frequency[window_mask] == fmax)`, return `np.inf` (here `none`)
if nothing is left, else peak power divided by the mean of the rest. -/
def calculate_snr (frequency power : List K) (fmaxIdx : ℕ) (windowSize : K) :
    Option K :=
  let peakPower := power.getD fmaxIdx 0
  let fmax := frequency.getD fmaxIdx 0
  let window := (frequency.zip power).filter
    (fun q => decide (fmax - windowSize ≤ q.1 ∧ q.1 ≤ fmax + windowSize))
  let noise := (window.map Prod.snd).eraseIdx
    (npArgmaxBool (window.map (fun q => decide (q.1 = fmax))))
  if noise = [] then none
  else some (peakPower / (noise.sum / (noise.length : K)))

/-- The helper `get_highest_frequency(time, magnitude, lscargle_kwds)`:
periodogram, local maxima, `None` if there are none, else the frequency of
the highest local maximum. -/
def get_highest_frequency (C : Collab K) (time magnitude : List K) : Option K :=
  let fp := C.lscargle time magnitude
  let peaks := C.findPeaks fp.2
  if peaks = [] then none
  else some (fp.1.getD (selPeak peaks fp.2) 0)

/-- The periodogram of `get_significant_frequency` after the optional
range mask (`frequency >= freq_range[0]) & (frequency <= freq_range[1]`,
applied to both arrays). -/
def maskedFP (C : Collab K) (time magnitude : List K)
    (freqRange : Option (K × K)) : List K × List K :=
  let fp := C.lscargle time magnitude
  match freqRange with
  | none => fp
  | some r =>
    let pairs := (fp.1.zip fp.2).filter
      (fun q => decide (r.1 ≤ q.1 ∧ q.1 ≤ r.2))
    (pairs.map Prod.fst, pairs.map Prod.snd)

/-- The helper `get_significant_frequency(...)`: mask the periodogram to
`freq_range` when given, find local maxima (`None` if there are none),
select the highest, reject it (`None`) when its SNR is below
`snr_threshold`, else return its frequency. -/
def get_significant_frequency (C : Collab K) (time magnitude : List K)
    (snrThreshold windowSize : K) (freqRange : Option (K × K)) : Option K :=
  let fp := maskedFP C time magnitude freqRange
  let peaks := C.findPeaks fp.2
  if peaks = [] then none
  else
    let idx := selPeak peaks fp.2
    if npLtB (calculate_snr fp.1 fp.2 idx windowSize) snrThreshold then none
    else some (fp.1.getD idx 0)

/-- One iteration of the inner harmonic loop (`for j in range(4)`), at
frequency `jf = (j+1)*fundamental_Freq`: `curve_fit` against `omagnitude`
(the residual as it was when the slot started - the source never updates
`omagnitude` inside the loop), record `np.sqrt(popt0**2 + popt1**2)` and
`np.arctan(popt1/popt0)`, and subtract the fitted model from the running
residual `mag`. -/
def harmStep (N : NumLib K) (C : Collab K) (time omagnitude : List K)
    (jf : K) (mag : List K) : K × K × List K :=
  let abc := C.curveFit jf time omagnitude
  (N.sqrt (abc.1 ^ 2 + abc.2.1 ^ 2),
   N.arctan (abc.2.1 / abc.1),
   (mag.zip time).map (fun q => q.1 - model N abc.1 abc.2.1 abc.2.2 jf q.2))

/-- The data produced by one frequency slot: the four amplitudes `Atemp`,
the four raw phases `PHtemp`, and the updated residual magnitude. -/
structure SlotOut (K : Type) where
  A : List K
  PH : List K
  mag : List K
  deriving DecidableEq

/-- One frequency slot of `_components` (the `for j in range(4)` loop,
identical in all four copies in the source): `omagnitude = magnitude`, then
the four harmonics `j = 1..4` are fit - each one against `omagnitude` -
while each fitted model is subtracted from the running `magnitude`. -/
def slot (N : NumLib K) (C : Collab K) (time : List K) (f : K)
    (magnitude : List K) : SlotOut K :=
  let omagnitude := magnitude
  let h1 := harmStep N C time omagnitude (1 * f) magnitude
  let h2 := harmStep N C time omagnitude (2 * f) h1.2.2
  let h3 := harmStep N C time omagnitude (3 * f) h2.2.2
  let h4 := harmStep N C time omagnitude (4 * f) h3.2.2
  ⟨[h1.1, h2.1, h3.1, h4.1], [h1.2.1, h2.2.1, h3.2.1, h4.2.1], h4.2.2⟩

/-- The accumulated state of `_components`: the lists `A`, `PH`, `freq`
and the current residual `magnitude`. -/
structure CState (K : Type) where
  A : List (List K)
  PH : List (List K)
  freq : List K
  mag : List K
  deriving DecidableEq

/-- The first, unconditional part of `_components`
(`for i in range(3)`): three iterations of peak search plus slot fit.
When `get_highest_frequency` returns `None`, the source immediately
computes `(j + 1) * fundamental_Freq` with `fundamental_Freq = None`,
which raises `TypeError`; the raised exception is modelled by `.error ()`. -/
def firstThree (N : NumLib K) (C : Collab K) (time magnitude : List K) :
    Except Unit (CState K) :=
  match get_highest_frequency C time magnitude with
  | none => .error ()
  | some f1 =>
    let s1 := slot N C time f1 magnitude
    match get_highest_frequency C time s1.mag with
    | none => .error ()
    | some f2 =>
      let s2 := slot N C time f2 s1.mag
      match get_highest_frequency C time s2.mag with
      | none => .error ()
      | some f3 =>
        let s3 := slot N C time f3 s2.mag
        .ok ⟨[s1.A, s2.A, s3.A], [s1.PH, s2.PH, s3.PH], [f1, f2, f3], s3.mag⟩

/-- Append one accepted extension slot to the state. -/
def addSlot (N : NumLib K) (C : Collab K) (time : List K) (st : CState K)
    (f : K) : CState K :=
  let s := slot N C time f st.mag
  ⟨st.A ++ [s.A], st.PH ++ [s.PH], st.freq ++ [f], s.mag⟩

/-- The extension part of `_components` (`for i in range(2)` with `break`):
two candidate searches through `get_significant_frequency`, stopping at the
first `None`.  The source spells this loop out three times (unrestricted,
restricted to `range1`, restricted to `range2`); the three copies are
textually identical up to the `freq_range` argument, abstracted here. -/
def extTwo (N : NumLib K) (C : Collab K) (time : List K)
    (snrThreshold windowSize : K) (freqRange : Option (K × K))
    (st : CState K) : CState K :=
  match get_significant_frequency C time st.mag snrThreshold windowSize freqRange with
  | none => st
  | some f4 =>
    let st1 := addSlot N C time st f4
    match get_significant_frequency C time st1.mag snrThreshold windowSize freqRange with
    | none => st1
    | some f5 => addSlot N C time st1 f5

/-- `range1 = [0.4, 3.3]` (the float literals are exact decimals here). -/
def range1 (K : Type) [LinearOrderedField K] : K × K := (4 / 10, 33 / 10)

/-- `range2 = [3.3, 27.4]`. -/
def range2 (K : Type) [LinearOrderedField K] : K × K := (33 / 10, 274 / 10)

/-- `range_[0] <= f <= range_[1]`, as in
`any(range1[0] <= f <= range1[1] for f in freq)`. -/
def inRangeB (r : K × K) (f : K) : Bool :=
  decide (r.1 ≤ f) && decide (f ≤ r.2)

/-- `time = time - np.min(time)` (the source normalizes the time axis
before anything else; `np.min` of the nonempty series). -/
def listMin : List K → K
  | [] => 0
  | x :: xs => xs.foldl min x

/-- Time normalization `time - np.min(time)`. -/
def normTime (time : List K) : List K :=
  time.map (fun t => t - listMin time)

/-- The value returned by `_components`: `A`, the raw phase matrix `PH`
(a local variable in the source, exposed here so that the phase
normalization can be specified), `scaledPH` and `freq`. -/
structure CResult (K : Type) where
  A : List (List K)
  PH : List (List K)
  scaledPH : List (List K)
  freq : List K
  deriving DecidableEq

/-- Lines 384-385 of the source:
`scaledPH = PH - PH[:, 0].reshape((len(PH), 1))` - from every row, its own
column-0 entry is subtracted (numpy broadcasting of the column vector). -/
def scalePH (PH : List (List K)) : List (List K) :=
  PH.map (fun row => row.map (fun x => x - row.getD 0 0))

/-- `_components(magnitude, time, lscargle_kwds, snr_threshold, window_size)`:
normalize time, extract three unconditional frequencies, classify the two
ranges, extend by up to two SNR-gated frequencies (unrestricted if both
ranges are represented, else restricted to the missing range, `range1`
checked first), then normalize the phases. -/
def components (N : NumLib K) (C : Collab K) (magnitude time : List K)
    (snrThreshold windowSize : K) : Except Unit (CResult K) :=
  let ntime := normTime time
  match firstThree N C ntime magnitude with
  | .error e => .error e
  | .ok st0 =>
    let range1P := st0.freq.any (inRangeB (range1 K))
    let range2P := st0.freq.any (inRangeB (range2 K))
    let st :=
      if range1P && range2P then
        extTwo N C ntime snrThreshold windowSize none st0
      else if !range1P then
        extTwo N C ntime snrThreshold windowSize (some (range1 K)) st0
      else if !range2P then
        extTwo N C ntime snrThreshold windowSize (some (range2 K)) st0
      else st0
    .ok ⟨st.A, st.PH, scalePH st.PH, st.freq⟩

/-- `f"Freq{i+1}_harmonics_amplitude_{j}"` (`i`, `j` 0-based as in the
source loops). -/
def ampKey (i j : ℕ) : String :=
  "Freq" ++ toString (i + 1) ++ "_harmonics_amplitude_" ++ toString j

/-- `f"Freq{i+1}_harmonics_rel_phase_{j}"`. -/
def phKey (i j : ℕ) : String :=
  "Freq" ++ toString (i + 1) ++ "_harmonics_rel_phase_" ++ toString j

/-- `f"PeriodLS{i+1}"`. -/
def perKey (i : ℕ) : String :=
  "PeriodLS" ++ toString (i + 1)

/-- The entries inserted by iteration `i` of the `for i in range(5)` loop
of `fit` (the `for j in range(4)` loop unrolled; per iteration the source
inserts the amplitude key then the phase key).  Populated slots
(`i < len(freq)`) receive values, including `PeriodLS{i+1} = 1/freq[i]`
for `i > 0`; unpopulated slots receive `None` everywhere. -/
def chunk (r : CResult K) (i : ℕ) : List (String × Option K) :=
  if i < r.freq.length then
    [(ampKey i 0, some ((r.A.getD i []).getD 0 0)),
     (phKey i 0, some ((r.scaledPH.getD i []).getD 0 0)),
     (ampKey i 1, some ((r.A.getD i []).getD 1 0)),
     (phKey i 1, some ((r.scaledPH.getD i []).getD 1 0)),
     (ampKey i 2, some ((r.A.getD i []).getD 2 0)),
     (phKey i 2, some ((r.scaledPH.getD i []).getD 2 0)),
     (ampKey i 3, some ((r.A.getD i []).getD 3 0)),
     (phKey i 3, some ((r.scaledPH.getD i []).getD 3 0))]
    ++ (if 0 < i then [(perKey i, some (1 / r.freq.getD i 0))] else [])
  else
    [(ampKey i 0, none), (phKey i 0, none),
     (ampKey i 1, none), (phKey i 1, none),
     (ampKey i 2, none), (phKey i 2, none),
     (ampKey i 3, none), (phKey i 3, none)]
    ++ (if 0 < i then [(perKey i, none)] else [])

/-- The result dictionary of `fit`, in insertion order
(`for i in range(5)` unrolled). -/
def assemble (r : CResult K) : List (String × Option K) :=
  chunk r 0 ++ chunk r 1 ++ chunk r 2 ++ chunk r 3 ++ chunk r 4

/-- `fit(magnitude, time, lscargle_kwds)`: runs `_components` with its
default `snr_threshold=3` and `window_size=0.5` and assembles the feature
dictionary (modelled as an association list in insertion order; the
missing marker `None` is `Option.none`). -/
def fit (N : NumLib K) (C : Collab K) (magnitude time : List K) :
    Except Unit (List (String × Option K)) :=
  match components N C magnitude time 3 (1 / 2) with
  | .error e => .error e
  | .ok r => .ok (assemble r)

/-! ## Specification-side definitions (for comparison with the source) -/

/-- Modelled from the claim C1 wording: harmonic `j` is fit to the current
residual magnitude, which already has the fits of harmonics `1..j-1` of the
same slot subtracted, and its fit is subtracted before harmonic `j+1` is
fit.  (The source, by contrast, fits every harmonic against the unchanged
slot-entry series `omagnitude`.) -/
def slotSeq (N : NumLib K) (C : Collab K) (time : List K) (f : K)
    (magnitude : List K) : SlotOut K :=
  let h1 := harmStep N C time magnitude (1 * f) magnitude
  let h2 := harmStep N C time h1.2.2 (2 * f) h1.2.2
  let h3 := harmStep N C time h2.2.2 (3 * f) h2.2.2
  let h4 := harmStep N C time h3.2.2 (4 * f) h3.2.2
  ⟨[h1.1, h2.1, h3.1, h4.1], [h1.2.1, h2.2.1, h3.2.1, h4.2.1], h4.2.2⟩

/-- Modelled from the claim C3 wording: a *global* normalization, every
slot's raw phases shifted by slot 0's first-harmonic raw phase. -/
def scalePHGlobal (PH : List (List K)) : List (List K) :=
  PH.map (fun row => row.map (fun x => x - (PH.getD 0 []).getD 0 0))

/-- Modelled from the claim C5 wording: the noise window is every frequency
bin within `window_size` of the peak frequency (inclusive on both sides)
with the peak bin itself (the entry at index `fmax_idx`) excluded; the SNR
is the peak power over the mean of the remaining window bins, infinite
(`none`) when nothing remains. -/
def snrSpec (frequency power : List K) (fmaxIdx : ℕ) (windowSize : K) :
    Option K :=
  let peakPower := power.getD fmaxIdx 0
  let fmax := frequency.getD fmaxIdx 0
  let noise := (((frequency.zip power).eraseIdx fmaxIdx).filter
    (fun q => decide (fmax - windowSize ≤ q.1 ∧ q.1 ≤ fmax + windowSize))).map Prod.snd
  if noise = [] then none
  else some (peakPower / (noise.sum / (noise.length : K)))

/-- The 44 feature keys of the `fit` output, in insertion order. -/
def fcKeys : List String :=
  ["Freq1_harmonics_amplitude_0", "Freq1_harmonics_rel_phase_0",
   "Freq1_harmonics_amplitude_1", "Freq1_harmonics_rel_phase_1",
   "Freq1_harmonics_amplitude_2", "Freq1_harmonics_rel_phase_2",
   "Freq1_harmonics_amplitude_3", "Freq1_harmonics_rel_phase_3",
   "Freq2_harmonics_amplitude_0", "Freq2_harmonics_rel_phase_0",
   "Freq2_harmonics_amplitude_1", "Freq2_harmonics_rel_phase_1",
   "Freq2_harmonics_amplitude_2", "Freq2_harmonics_rel_phase_2",
   "Freq2_harmonics_amplitude_3", "Freq2_harmonics_rel_phase_3",
   "PeriodLS2",
   "Freq3_harmonics_amplitude_0", "Freq3_harmonics_rel_phase_0",
   "Freq3_harmonics_amplitude_1", "Freq3_harmonics_rel_phase_1",
   "Freq3_harmonics_amplitude_2", "Freq3_harmonics_rel_phase_2",
   "Freq3_harmonics_amplitude_3", "Freq3_harmonics_rel_phase_3",
   "PeriodLS3",
   "Freq4_harmonics_amplitude_0", "Freq4_harmonics_rel_phase_0",
   "Freq4_harmonics_amplitude_1", "Freq4_harmonics_rel_phase_1",
   "Freq4_harmonics_amplitude_2", "Freq4_harmonics_rel_phase_2",
   "Freq4_harmonics_amplitude_3", "Freq4_harmonics_rel_phase_3",
   "PeriodLS4",
   "Freq5_harmonics_amplitude_0", "Freq5_harmonics_rel_phase_0",
   "Freq5_harmonics_amplitude_1", "Freq5_harmonics_rel_phase_1",
   "Freq5_harmonics_amplitude_2", "Freq5_harmonics_rel_phase_2",
   "Freq5_harmonics_amplitude_3", "Freq5_harmonics_rel_phase_3",
   "PeriodLS5"]

/-! ## Concrete instances used by witnesses and counterexamples -/

/-- Degenerate numerics (over `ℚ`) for concrete evaluations where only the
control flow matters. -/
def N0 : NumLib ℚ := ⟨id, id, id, id, 0⟩

/-- Numerics whose `cos` is the constant `1` and `sin` the constant `0`
(values a genuine sine/cosine attain at `t = 0`), so the fitted model is
nonzero and the residual actually changes. -/
def N1 : NumLib ℚ := ⟨id, id, fun _ => 0, fun _ => 1, 0⟩

/-- A collaborator bundle whose periodogram is the single bin
`(frequency, power) = ([1], [1])`, whose peak finder returns the first
index of any nonempty array, and whose fitter returns `(0, 0, 0)`. -/
def C0 : Collab ℚ :=
  ⟨fun _ _ => ([1], [1]),
   fun p => if p.length = 0 then [] else [0],
   fun _ _ _ => (0, 0, 0)⟩

/-- A fitter whose output depends on the series it is given: it returns
`(head of the series, 1, 0)`.  Distinguishes fitting against the slot-entry
series from fitting against the updated residual. -/
def C1c : Collab ℚ :=
  ⟨fun _ _ => ([1], [1]),
   fun p => if p.length = 0 then [] else [0],
   fun _ _ series => (series.headD 0, 1, 0)⟩

/-- A collaborator whose peak finder never finds a local maximum. -/
def C2c : Collab ℚ :=
  ⟨fun _ _ => ([1], [1]), fun _ => [], fun _ _ _ => (0, 0, 0)⟩

/-- A collaborator producing a three-bin periodogram `[1, 2, 3] / [1, 5, 1]`
with one local maximum at index 1; peak power 5 over mean noise power 1
gives SNR 5. -/
def C8c : Collab ℚ :=
  ⟨fun _ _ => ([1, 2, 3], [1, 5, 1]),
   fun p => if p.length = 3 then [1] else [],
   fun _ _ _ => (0, 0, 0)⟩

/-- The result of `components N0 C0 [0] [0] 3 (1/2)`: three populated
slots, all amplitudes and phases `0`, all three frequencies `1`. -/
def trivOut : CResult ℚ :=
  ⟨[[0, 0, 0, 0], [0, 0, 0, 0], [0, 0, 0, 0]],
   [[0, 0, 0, 0], [0, 0, 0, 0], [0, 0, 0, 0]],
   [[0, 0, 0, 0], [0, 0, 0, 0], [0, 0, 0, 0]],
   [1, 1, 1]⟩



variable {K : Type} [LinearOrderedField K]

/-! ## Structural lemmas -/

/-- Subtracting two pointwise models one after the other along the time
axis is the same as subtracting their pointwise sum. -/
theorem zipmap_sub (m t : List K) (F G : K → K) :
    (((m.zip t).map (fun q => q.1 - F q.2)).zip t).map (fun q => q.1 - G q.2)
      = (m.zip t).map (fun q => q.1 - (F q.2 + G q.2)) := by
  induction m generalizing t with
  | nil => simp
  | cons x xs ih =>
    cases t with
    | nil => simp
    | cons y ys => simp [ih, sub_sub]

theorem slot_PH_length (N : NumLib K) (C : Collab K) (time : List K) (f : K)
    (m : List K) : (slot N C time f m).PH.length = 4 := rfl

theorem slot_A_length (N : NumLib K) (C : Collab K) (time : List K) (f : K)
    (m : List K) : (slot N C time f m).A.length = 4 := rfl

theorem slot_A_mem {N : NumLib K} {C : Collab K} {time : List K} {f : K}
    {m : List K} {a : K} (ha : a ∈ (slot N C time f m).A) :
    ∃ x y, a = N.sqrt (x ^ 2 + y ^ 2) := by
  simp only [slot, List.mem_cons, List.not_mem_nil, or_false] at ha
  rcases ha with h | h | h | h <;> exact ⟨_, _, h⟩

theorem firstThree_shape {N : NumLib K} {C : Collab K} {time m : List K}
    {st : CState K} (h : firstThree N C time m = .ok st) :
    st.freq.length = 3 ∧ st.PH.length = 3 ∧ st.A.length = 3 ∧
    (∀ row ∈ st.PH, row.length = 4) ∧
    (∀ a ∈ st.A, ∀ x ∈ a, ∃ u v, x = N.sqrt (u ^ 2 + v ^ 2)) := by
  cases h1 : get_highest_frequency C time m with
  | none => simp [firstThree, h1] at h
  | some f1 =>
    cases h2 : get_highest_frequency C time (slot N C time f1 m).mag with
    | none => simp [firstThree, h1, h2] at h
    | some f2 =>
      cases h3 : get_highest_frequency C time
          (slot N C time f2 (slot N C time f1 m).mag).mag with
      | none => simp [firstThree, h1, h2, h3] at h
      | some f3 =>
        simp only [firstThree, h1, h2, h3] at h
        injection h with h
        subst h
        refine ⟨rfl, rfl, rfl, ?_, ?_⟩
        · intro row hr
          simp only [List.mem_cons, List.not_mem_nil, or_false] at hr
          rcases hr with rfl | rfl | rfl <;> exact slot_PH_length ..
        · intro a ha x hx
          simp only [List.mem_cons, List.not_mem_nil, or_false] at ha
          rcases ha with rfl | rfl | rfl <;> exact slot_A_mem hx

theorem addSlot_PH (N : NumLib K) (C : Collab K) (time : List K)
    (st : CState K) (f : K) :
    (addSlot N C time st f).PH = st.PH ++ [(slot N C time f st.mag).PH] := rfl

theorem addSlot_A (N : NumLib K) (C : Collab K) (time : List K)
    (st : CState K) (f : K) :
    (addSlot N C time st f).A = st.A ++ [(slot N C time f st.mag).A] := rfl

theorem addSlot_freq (N : NumLib K) (C : Collab K) (time : List K)
    (st : CState K) (f : K) :
    (addSlot N C time st f).freq = st.freq ++ [f] := rfl

theorem extTwo_freq (N : NumLib K) (C : Collab K) (time : List K) (s w : K)
    (fr : Option (K × K)) (st : CState K) :
    ∃ ext : List K, (extTwo N C time s w fr st).freq = st.freq ++ ext ∧
      ext.length ≤ 2 ∧
      ∀ g ∈ ext, ∃ mg, get_significant_frequency C time mg s w fr = some g := by
  cases h4 : get_significant_frequency C time st.mag s w fr with
  | none => exact ⟨[], by simp [extTwo, h4], by simp, by simp⟩
  | some f4 =>
    cases h5 : get_significant_frequency C time (addSlot N C time st f4).mag
        s w fr with
    | none =>
      refine ⟨[f4], by simp [extTwo, h4, h5, addSlot_freq], by simp, ?_⟩
      intro g hg
      simp only [List.mem_singleton] at hg
      subst hg
      exact ⟨st.mag, h4⟩
    | some f5 =>
      refine ⟨[f4, f5], by simp [extTwo, h4, h5, addSlot_freq], by simp, ?_⟩
      intro g hg
      simp only [List.mem_cons, List.not_mem_nil, or_false] at hg
      rcases hg with rfl | rfl
      · exact ⟨st.mag, h4⟩
      · exact ⟨(addSlot N C time st f4).mag, h5⟩

theorem extTwo_PH_rows {N : NumLib K} {C : Collab K} {time : List K}
    {s w : K} {fr : Option (K × K)} {st : CState K}
    (hst : ∀ row ∈ st.PH, row.length = 4) :
    ∀ row ∈ (extTwo N C time s w fr st).PH, row.length = 4 := by
  have hadd : ∀ (st2 : CState K) (f : K),
      (∀ row ∈ st2.PH, row.length = 4) →
      ∀ row ∈ (addSlot N C time st2 f).PH, row.length = 4 := by
    intro st2 f h2 row hr
    rw [addSlot_PH] at hr
    rcases List.mem_append.mp hr with hm | hm
    · exact h2 row hm
    · simp only [List.mem_singleton] at hm
      subst hm
      exact slot_PH_length ..
  cases h4 : get_significant_frequency C time st.mag s w fr with
  | none => simpa [extTwo, h4] using hst
  | some f4 =>
    cases h5 : get_significant_frequency C time (addSlot N C time st f4).mag
        s w fr with
    | none => simpa [extTwo, h4, h5] using hadd st f4 hst
    | some f5 =>
      simpa [extTwo, h4, h5] using hadd _ f5 (hadd st f4 hst)

theorem extTwo_A_sqrt {N : NumLib K} {C : Collab K} {time : List K}
    {s w : K} {fr : Option (K × K)} {st : CState K}
    (hst : ∀ a ∈ st.A, ∀ x ∈ a, ∃ u v, x = N.sqrt (u ^ 2 + v ^ 2)) :
    ∀ a ∈ (extTwo N C time s w fr st).A, ∀ x ∈ a,
      ∃ u v, x = N.sqrt (u ^ 2 + v ^ 2) := by
  have hadd : ∀ (st2 : CState K) (f : K),
      (∀ a ∈ st2.A, ∀ x ∈ a, ∃ u v, x = N.sqrt (u ^ 2 + v ^ 2)) →
      ∀ a ∈ (addSlot N C time st2 f).A, ∀ x ∈ a,
        ∃ u v, x = N.sqrt (u ^ 2 + v ^ 2) := by
    intro st2 f h2 a ha x hx
    rw [addSlot_A] at ha
    rcases List.mem_append.mp ha with hm | hm
    · exact h2 a hm x hx
    · simp only [List.mem_singleton] at hm
      subst hm
      exact slot_A_mem hx
  cases h4 : get_significant_frequency C time st.mag s w fr with
  | none => simpa [extTwo, h4] using hst
  | some f4 =>
    cases h5 : get_significant_frequency C time (addSlot N C time st f4).mag
        s w fr with
    | none => simpa [extTwo, h4, h5] using hadd st f4 hst
    | some f5 =>
      simpa [extTwo, h4, h5] using hadd _ f5 (hadd st f4 hst)

theorem components_ok {N : NumLib K} {C : Collab K} {mag time : List K}
    {s w : K} {r : CResult K} (h : components N C mag time s w = .ok r) :
    ∃ st0 st, firstThree N C (normTime time) mag = .ok st0 ∧
      (st = st0 ∨ ∃ fr, st = extTwo N C (normTime time) s w fr st0) ∧
      r.A = st.A ∧ r.PH = st.PH ∧ r.scaledPH = scalePH st.PH ∧
      r.freq = st.freq := by
  cases h0 : firstThree N C (normTime time) mag with
  | error e => simp [components, h0] at h
  | ok st0 =>
    simp only [components, h0] at h
    refine ⟨st0, ?_⟩
    split at h <;> [skip; split at h] <;> [skip; skip; split at h]
    all_goals injection h with h; subst h
    · exact ⟨_, rfl, Or.inr ⟨none, rfl⟩, rfl, rfl, rfl, rfl⟩
    · exact ⟨_, rfl, Or.inr ⟨some (range1 K), rfl⟩, rfl, rfl, rfl, rfl⟩
    · exact ⟨_, rfl, Or.inr ⟨some (range2 K), rfl⟩, rfl, rfl, rfl, rfl⟩
    · exact ⟨_, rfl, Or.inl rfl, rfl, rfl, rfl, rfl⟩





/-- `(l.map f).getD n = f (l.getD n)` for an in-bounds index. -/
theorem getD_map_of_lt {β γ : Type} (f : β → γ) (l : List β) (n : ℕ)
    (h : n < l.length) (d : β) (d2 : γ) :
    (l.map f).getD n d2 = f (l.getD n d) := by
  rw [List.getD_eq_getElem l d h, List.getD_eq_getElem _ d2 (by simpa using h)]
  simp

/-- An in-bounds `getD` value is a member of the list. -/
theorem getD_mem_of_lt {β : Type} (l : List β) (n : ℕ) (h : n < l.length)
    (d : β) : l.getD n d ∈ l := by
  rw [List.getD_eq_getElem l d h]
  exact List.getElem_mem h

/-- The concrete run used by several witnesses below. -/
theorem trivRun : components N0 C0 [0] [0] 3 (1 / 2) = .ok trivOut := by
  norm_num [components, firstThree, get_highest_frequency,
    get_significant_frequency, maskedFP, calculate_snr, selPeak, npArgmax,
    npArgmaxAux, npArgmaxBool, npLtB, slot, harmStep, model, addSlot, extTwo,
    normTime, listMin, scalePH, inRangeB, range1, range2, N0, C0, trivOut]

/-- C1, counterexample: with a fitter whose output depends on the series it
is given, fitting every harmonic against the unchanged slot-entry series
(the source behaviour, `slot`) differs from fitting each harmonic to the
residual left by the previous harmonics (the claimed behaviour, `slotSeq`)
already on the one-point series `magnitude = [0]`, `time = [0]`, `f = 1`. -/
theorem C1_counterexample :
    slot N1 C1c [0] 1 [0] ≠ slotSeq N1 C1c [0] 1 [0] := by
  norm_num [slot, slotSeq, harmStep, model, N1, C1c]

/-- C1 (amended): within a slot all four harmonic fits are performed
against the slot-entry residual (`omagnitude`), not against the updated
one, while each fitted model is subtracted cumulatively from the running
residual - so the slot's final residual subtracts the pointwise sum of the
four fitted models from the entry residual. -/
theorem C1_amended_theorem (N : NumLib K) (C : Collab K) (time : List K)
    (f : K) (mag : List K) :
    (slot N C time f mag).A =
      [N.sqrt ((C.curveFit (1 * f) time mag).1 ^ 2 + (C.curveFit (1 * f) time mag).2.1 ^ 2),
       N.sqrt ((C.curveFit (2 * f) time mag).1 ^ 2 + (C.curveFit (2 * f) time mag).2.1 ^ 2),
       N.sqrt ((C.curveFit (3 * f) time mag).1 ^ 2 + (C.curveFit (3 * f) time mag).2.1 ^ 2),
       N.sqrt ((C.curveFit (4 * f) time mag).1 ^ 2 + (C.curveFit (4 * f) time mag).2.1 ^ 2)] ∧
    (slot N C time f mag).PH =
      [N.arctan ((C.curveFit (1 * f) time mag).2.1 / (C.curveFit (1 * f) time mag).1),
       N.arctan ((C.curveFit (2 * f) time mag).2.1 / (C.curveFit (2 * f) time mag).1),
       N.arctan ((C.curveFit (3 * f) time mag).2.1 / (C.curveFit (3 * f) time mag).1),
       N.arctan ((C.curveFit (4 * f) time mag).2.1 / (C.curveFit (4 * f) time mag).1)] ∧
    (slot N C time f mag).mag =
      (mag.zip time).map (fun q => q.1 -
        (model N (C.curveFit (1 * f) time mag).1 (C.curveFit (1 * f) time mag).2.1
           (C.curveFit (1 * f) time mag).2.2 (1 * f) q.2 +
         model N (C.curveFit (2 * f) time mag).1 (C.curveFit (2 * f) time mag).2.1
           (C.curveFit (2 * f) time mag).2.2 (2 * f) q.2 +
         model N (C.curveFit (3 * f) time mag).1 (C.curveFit (3 * f) time mag).2.1
           (C.curveFit (3 * f) time mag).2.2 (3 * f) q.2 +
         model N (C.curveFit (4 * f) time mag).1 (C.curveFit (4 * f) time mag).2.1
           (C.curveFit (4 * f) time mag).2.2 (4 * f) q.2)) := by
  refine ⟨rfl, rfl, ?_⟩
  simp only [slot, harmStep]
  rw [zipmap_sub, zipmap_sub]
  rw [zipmap_sub mag time
    (fun y => model N (C.curveFit (1 * f) time mag).1 (C.curveFit (1 * f) time mag).2.1
        (C.curveFit (1 * f) time mag).2.2 (1 * f) y +
      model N (C.curveFit (2 * f) time mag).1 (C.curveFit (2 * f) time mag).2.1
        (C.curveFit (2 * f) time mag).2.2 (2 * f) y)
    (fun y => model N (C.curveFit (3 * f) time mag).1 (C.curveFit (3 * f) time mag).2.1
        (C.curveFit (3 * f) time mag).2.2 (3 * f) y +
      model N (C.curveFit (4 * f) time mag).1 (C.curveFit (4 * f) time mag).2.1
        (C.curveFit (4 * f) time mag).2.2 (4 * f) y)]
  simp only [add_assoc]

/-- C2 (code bug): when the periodogram of the first unconditional
iteration has no local maximum, `get_highest_frequency` returns `None` and
`_components` immediately evaluates `(j + 1) * fundamental_Freq` with
`fundamental_Freq = None`, raising `TypeError` - the call does not degrade
to a missing value. -/
theorem C2_error_theorem (N : NumLib K) (C : Collab K) (mag time : List K)
    (s w : K) (h : get_highest_frequency C (normTime time) mag = none) :
    components N C mag time s w = .error () := by
  simp [components, firstThree, h]

/-- C2, witness: with a peak finder that never reports a local maximum, the
call errors out instead of producing a result with missing fields. -/
theorem C2_error_witness : components N0 C2c [0] [0] 3 (1 / 2) = .error () :=
  C2_error_theorem N0 C2c [0] [0] 3 (1 / 2)
    (by simp [get_highest_frequency, C2c])

/-- C3, counterexample: the normalization of lines 384-385 is not the
global one described by the claim.  On the raw phase matrix
`[[1,0,0,0],[2,0,0,0]]` the source (`scalePH`) gives second row
`[0,-2,-2,-2]` while the claimed global normalization (`scalePHGlobal`,
subtracting slot 0's first-harmonic phase from every slot) gives
`[1,-1,-1,-1]`. -/
theorem C3_counterexample :
    scalePH (K := ℚ) [[1, 0, 0, 0], [2, 0, 0, 0]] ≠
      scalePHGlobal [[1, 0, 0, 0], [2, 0, 0, 0]] := by
  norm_num [scalePH, scalePHGlobal]

/-- C3 (amended): the phase normalization is per-slot - every slot's scaled
phase `j` is that slot's raw phase `j` minus that same slot's raw phase at
harmonic index 0. -/
theorem C3_amended_theorem {N : NumLib K} {C : Collab K} {mag time : List K}
    {s w : K} {r : CResult K} (h : components N C mag time s w = .ok r) :
    ∀ i j : ℕ, i < r.PH.length → j < 4 →
      (r.scaledPH.getD i []).getD j 0 =
        (r.PH.getD i []).getD j 0 - (r.PH.getD i []).getD 0 0 := by
  obtain ⟨st0, st, h0, hst, hA, hPH, hsc, hfq⟩ := components_ok h
  obtain ⟨-, -, -, hrows0, -⟩ := firstThree_shape h0
  have hrows : ∀ row ∈ st.PH, row.length = 4 := by
    rcases hst with rfl | ⟨fr, rfl⟩
    · exact hrows0
    · exact extTwo_PH_rows hrows0
  intro i j hi hj
  rw [hPH] at hi ⊢
  rw [hsc]
  rw [scalePH, getD_map_of_lt _ _ _ hi []]
  have hlen : (st.PH.getD i []).length = 4 :=
    hrows _ (getD_mem_of_lt _ _ hi [])
  rw [getD_map_of_lt _ _ _ (by omega) 0]

/-- C4: for every populated slot the harmonic-0 relative phase returned by
`_components` is exactly `0`. -/
theorem C4_theorem {N : NumLib K} {C : Collab K} {mag time : List K}
    {s w : K} {r : CResult K} (h : components N C mag time s w = .ok r) :
    ∀ row ∈ r.scaledPH, row.getD 0 0 = 0 := by
  obtain ⟨st0, st, h0, hst, hA, hPH, hsc, hfq⟩ := components_ok h
  obtain ⟨-, -, -, hrows0, -⟩ := firstThree_shape h0
  have hrows : ∀ row ∈ st.PH, row.length = 4 := by
    rcases hst with rfl | ⟨fr, rfl⟩
    · exact hrows0
    · exact extTwo_PH_rows hrows0
  rw [hsc]
  intro row hr
  simp only [scalePH, List.mem_map] at hr
  obtain ⟨ph, hph, rfl⟩ := hr
  have h4 := hrows ph hph
  cases ph with
  | nil => simp at h4
  | cons x rest => simp

/-- C4, witness. -/
theorem C4_witness : ((trivOut.scaledPH.getD 0 []).getD 0 0 : ℚ) = 0 :=
  C4_theorem trivRun (trivOut.scaledPH.getD 0 []) (by simp [trivOut])

/-- C3, witness for the amended theorem. -/
theorem C3_amended_witness :
    ((trivOut.scaledPH.getD 0 []).getD 1 0 : ℚ) =
      (trivOut.PH.getD 0 []).getD 1 0 - (trivOut.PH.getD 0 []).getD 0 0 :=
  C3_amended_theorem trivRun 0 1 (by simp [trivOut]) (by norm_num)

/-- C9: every amplitude of a populated slot is of the form
`sqrt(a^2 + b^2)` for the fitted coefficients, hence non-negative whenever
the square root function is non-negative on non-negative arguments (as
`np.sqrt` is). -/
theorem C9_theorem {N : NumLib K} {C : Collab K} {mag time : List K}
    {s w : K} {r : CResult K} (hsqrt : ∀ x : K, 0 ≤ x → 0 ≤ N.sqrt x)
    (h : components N C mag time s w = .ok r) :
    ∀ a ∈ r.A, ∀ x ∈ a, 0 ≤ x ∧ ∃ u v, x = N.sqrt (u ^ 2 + v ^ 2) := by
  obtain ⟨st0, st, h0, hst, hA, hPH, hsc, hfq⟩ := components_ok h
  obtain ⟨-, -, -, -, hsq0⟩ := firstThree_shape h0
  have hsq : ∀ a ∈ st.A, ∀ x ∈ a, ∃ u v, x = N.sqrt (u ^ 2 + v ^ 2) := by
    rcases hst with rfl | ⟨fr, rfl⟩
    · exact hsq0
    · exact extTwo_A_sqrt hsq0
  rw [hA]
  intro a ha x hx
  obtain ⟨u, v, rfl⟩ := hsq a ha x hx
  exact ⟨hsqrt _ (by positivity), u, v, rfl⟩

/-- C9, witness. -/
theorem C9_witness :
    (0 : ℚ) ≤ 0 ∧ ∃ u v : ℚ, (0 : ℚ) = N0.sqrt (u ^ 2 + v ^ 2) :=
  C9_theorem (by intro x hx; simpa [N0] using hx) trivRun
    [0, 0, 0, 0] (by simp [trivOut]) 0 (by simp)





theorem npArgmaxAux_lt (l : List K) (bi : ℕ) (bv : K) (ci : ℕ) (h : bi < ci) :
    npArgmaxAux l bi bv ci < ci + l.length := by
  induction l generalizing bi bv ci with
  | nil => simpa using h
  | cons x xs ih =>
    simp only [npArgmaxAux, List.length_cons]
    split
    · have := ih ci x (ci + 1) (Nat.lt_succ_self ci)
      omega
    · have := ih bi bv (ci + 1) (Nat.lt_succ_of_lt h)
      omega

theorem npArgmax_lt (l : List K) (h : l ≠ []) : npArgmax l < l.length := by
  cases l with
  | nil => exact absurd rfl h
  | cons x xs =>
    have := npArgmaxAux_lt xs 0 x 1 Nat.one_pos
    simpa [npArgmax, Nat.add_comm] using this

theorem selPeak_mem (peaks : List ℕ) (power : List K) (h : peaks ≠ []) :
    selPeak peaks power ∈ peaks := by
  have hlt : npArgmax (peaks.map (fun k => power.getD k 0)) < peaks.length := by
    have := npArgmax_lt (peaks.map (fun k => power.getD k 0))
      (by simpa using h)
    simpa using this
  exact getD_mem_of_lt _ _ hlt 0

/-- A frequency accepted by `get_significant_frequency` under a range mask
lies inside that range (both endpoints included). -/
theorem get_significant_range {C : Collab K} {time mg : List K}
    {s w lo hi g : K} (hWF : FindPeaksWF C)
    (h : get_significant_frequency C time mg s w (some (lo, hi)) = some g) :
    lo ≤ g ∧ g ≤ hi := by
  simp only [get_significant_frequency, maskedFP] at h
  split at h
  · exact absurd h (by simp)
  · next hne =>
    split at h
    · exact absurd h (by simp)
    · next =>
      injection h with h
      subst h
      have hmem := selPeak_mem
        (C.findPeaks ((((C.lscargle time mg).1.zip (C.lscargle time mg).2).filter
          (fun q => decide (lo ≤ q.1 ∧ q.1 ≤ hi))).map Prod.snd))
        ((((C.lscargle time mg).1.zip (C.lscargle time mg).2).filter
          (fun q => decide (lo ≤ q.1 ∧ q.1 ≤ hi))).map Prod.snd) hne
      have hidx := hWF _ _ hmem
      rw [List.length_map] at hidx
      rw [getD_map_of_lt Prod.fst _ _ hidx (0, 0)]
      have hm : (((C.lscargle time mg).1.zip (C.lscargle time mg).2).filter
          (fun q => decide (lo ≤ q.1 ∧ q.1 ≤ hi))).getD
            (selPeak (C.findPeaks ((((C.lscargle time mg).1.zip
              (C.lscargle time mg).2).filter
                (fun q => decide (lo ≤ q.1 ∧ q.1 ≤ hi))).map Prod.snd))
              ((((C.lscargle time mg).1.zip (C.lscargle time mg).2).filter
                (fun q => decide (lo ≤ q.1 ∧ q.1 ≤ hi))).map Prod.snd))
            (0, 0) ∈
          ((C.lscargle time mg).1.zip (C.lscargle time mg).2).filter
            (fun q => decide (lo ≤ q.1 ∧ q.1 ≤ hi)) :=
        getD_mem_of_lt _ _ hidx (0, 0)
      have := List.of_mem_filter hm
      simpa using this





/-- C8: during the extension phase, a candidate whose SNR is below the
threshold makes `get_significant_frequency` return the missing marker, the
extension loop returns its state unchanged (no further slot attempted),
and a failure at the second extension iteration keeps exactly the slots
accepted before it. -/
theorem C8_theorem (N : NumLib K) (C : Collab K) (time mg : List K)
    (s w : K) (fr : Option (K × K))
    (hpk : C.findPeaks (maskedFP C time mg fr).2 ≠ [])
    (hsnr : npLtB (calculate_snr (maskedFP C time mg fr).1
        (maskedFP C time mg fr).2
        (selPeak (C.findPeaks (maskedFP C time mg fr).2)
          (maskedFP C time mg fr).2) w) s = true) :
    get_significant_frequency C time mg s w fr = none ∧
    (∀ st : CState K, st.mag = mg → extTwo N C time s w fr st = st) ∧
    (∀ (st : CState K) (f : K),
       get_significant_frequency C time st.mag s w fr = some f →
       (addSlot N C time st f).mag = mg →
       extTwo N C time s w fr st = addSlot N C time st f) := by
  have h1 : get_significant_frequency C time mg s w fr = none := by
    simp only [get_significant_frequency]
    rw [if_neg hpk, if_pos hsnr]
  refine ⟨h1, ?_, ?_⟩
  · intro st hmag
    subst hmag
    simp [extTwo, h1]
  · intro st f hf hmag2
    simp only [extTwo, hf]
    rw [hmag2, h1]

/-- C8, witness: a three-bin periodogram with peak power 5 and mean window
noise power 1 (SNR 5) is rejected at threshold 6 and stops the loop. -/
theorem C8_witness :
    get_significant_frequency C8c [0] [0] 6 1 none = none ∧
    (∀ st : CState ℚ, st.mag = [0] → extTwo N0 C8c [0] 6 1 none st = st) ∧
    (∀ (st : CState ℚ) (f : ℚ),
       get_significant_frequency C8c [0] st.mag 6 1 none = some f →
       (addSlot N0 C8c [0] st f).mag = [0] →
       extTwo N0 C8c [0] 6 1 none st = addSlot N0 C8c [0] st f) :=
  C8_theorem N0 C8c [0] [0] 6 1 none
    (by norm_num [maskedFP, C8c])
    (by
      have h : calculate_snr (maskedFP C8c [0] [0] none).1
          (maskedFP C8c [0] [0] none).2
          (selPeak (C8c.findPeaks (maskedFP C8c [0] [0] none).2)
            (maskedFP C8c [0] [0] none).2) 1 = some 5 := by
        norm_num [maskedFP, C8c, calculate_snr, selPeak, npArgmax,
          npArgmaxAux, npArgmaxBool, List.findIdx_cons,
          List.eraseIdx_cons_zero, List.eraseIdx_cons_succ]
        intro hh
        simp at hh
      rw [h]
      norm_num [npLtB])

/-- C10: during the extension phase, a (possibly range-masked) periodogram
with no local maximum at all is treated exactly like an SNR failure: the
candidate is the missing marker, the extension loop returns its state
unchanged, and a failure at the second extension iteration keeps exactly
the slots accepted before it. -/
theorem C10_theorem (N : NumLib K) (C : Collab K) (time mg : List K)
    (s w : K) (fr : Option (K × K))
    (hpk : C.findPeaks (maskedFP C time mg fr).2 = []) :
    get_significant_frequency C time mg s w fr = none ∧
    (∀ st : CState K, st.mag = mg → extTwo N C time s w fr st = st) ∧
    (∀ (st : CState K) (f : K),
       get_significant_frequency C time st.mag s w fr = some f →
       (addSlot N C time st f).mag = mg →
       extTwo N C time s w fr st = addSlot N C time st f) := by
  have h1 : get_significant_frequency C time mg s w fr = none := by
    simp only [get_significant_frequency]
    rw [if_pos hpk]
  refine ⟨h1, ?_, ?_⟩
  · intro st hmag
    subst hmag
    simp [extTwo, h1]
  · intro st f hf hmag2
    simp only [extTwo, hf]
    rw [hmag2, h1]

/-- C10, witness: masking the one-bin periodogram `([1], [1])` to `range2`
leaves no bin, hence no local maximum, and the loop stops. -/
theorem C10_witness :
    get_significant_frequency C0 [0] [0] 3 (1 / 2) (some (range2 ℚ)) = none ∧
    (∀ st : CState ℚ, st.mag = [0] →
       extTwo N0 C0 [0] 3 (1 / 2) (some (range2 ℚ)) st = st) ∧
    (∀ (st : CState ℚ) (f : ℚ),
       get_significant_frequency C0 [0] st.mag 3 (1 / 2) (some (range2 ℚ)) = some f →
       (addSlot N0 C0 [0] st f).mag = [0] →
       extTwo N0 C0 [0] 3 (1 / 2) (some (range2 ℚ)) st = addSlot N0 C0 [0] st f) :=
  C10_theorem N0 C0 [0] [0] 3 (1 / 2) (some (range2 ℚ))
    (by norm_num [maskedFP, C0, range2])





/-- C6: after the three unconditional slots, range representation decides
the extension.  If `range1` is unrepresented among the first three
frequencies, every extension frequency lies in `range1`; otherwise if
`range2` is unrepresented, every extension frequency lies in `range2`; and
if both are represented, the extension is the unrestricted
(`freq_range = None`) search. -/
theorem C6_theorem {N : NumLib K} {C : Collab K} {mag time : List K}
    {s w : K} {r : CResult K} (hWF : FindPeaksWF C)
    (h : components N C mag time s w = .ok r) :
    ((r.freq.take 3).any (inRangeB (range1 K)) = false →
       ∀ g ∈ r.freq.drop 3, inRangeB (range1 K) g = true) ∧
    ((r.freq.take 3).any (inRangeB (range1 K)) = true →
     (r.freq.take 3).any (inRangeB (range2 K)) = false →
       ∀ g ∈ r.freq.drop 3, inRangeB (range2 K) g = true) ∧
    ((r.freq.take 3).any (inRangeB (range1 K)) = true →
     (r.freq.take 3).any (inRangeB (range2 K)) = true →
       ∀ st0, firstThree N C (normTime time) mag = .ok st0 →
         r.freq = (extTwo N C (normTime time) s w none st0).freq) := by
  cases h0 : firstThree N C (normTime time) mag with
  | error e => simp [components, h0] at h
  | ok st0 =>
    have hlen3 : st0.freq.length = 3 := (firstThree_shape h0).1
    simp only [components, h0] at h
    have huniq : ∀ st1 : CState K,
        (Except.ok st0 : Except Unit (CState K)) = .ok st1 → st1 = st0 := by
      intro st1 h1
      injection h1 with h1
      exact h1.symm
    split at h
    · next hcond =>
      rw [Bool.and_eq_true] at hcond
      injection h with h
      subst h
      obtain ⟨ext, heq, -, -⟩ :=
        extTwo_freq N C (normTime time) s w none st0
      have htake : ((extTwo N C (normTime time) s w none st0).freq.take 3)
          = st0.freq := by
        rw [heq, List.take_left' hlen3]
      refine ⟨?_, ?_, ?_⟩
      · intro hfalse
        rw [htake, hcond.1] at hfalse
        exact absurd hfalse (by simp)
      · intro _ hfalse
        rw [htake, hcond.2] at hfalse
        exact absurd hfalse (by simp)
      · intro _ _ st1 h1
        rw [huniq st1 h1]
    · next hcond =>
      split at h
      · next hr1 =>
        rw [Bool.not_eq_true'] at hr1
        injection h with h
        subst h
        obtain ⟨ext, heq, -, hget⟩ :=
          extTwo_freq N C (normTime time) s w (some (range1 K)) st0
        have htake : ((extTwo N C (normTime time) s w (some (range1 K)) st0).freq.take 3)
            = st0.freq := by
          rw [heq, List.take_left' hlen3]
        have hdrop : ((extTwo N C (normTime time) s w (some (range1 K)) st0).freq.drop 3)
            = ext := by
          rw [heq, List.drop_left' hlen3]
        refine ⟨?_, ?_, ?_⟩
        · intro _ g hg
          rw [hdrop] at hg
          obtain ⟨mg, hmg⟩ := hget g hg
          have := get_significant_range hWF hmg
          simp [inRangeB, range1, this.1, this.2]
        · intro h1true _
          rw [htake, hr1] at h1true
          exact absurd h1true (by simp)
        · intro h1true _ st1 h1
          rw [htake, hr1] at h1true
          exact absurd h1true (by simp)
      · next hr1 =>
        rw [Bool.not_eq_true', Bool.not_eq_false] at hr1
        split at h
        · next hr2 =>
          rw [Bool.not_eq_true'] at hr2
          injection h with h
          subst h
          obtain ⟨ext, heq, -, hget⟩ :=
            extTwo_freq N C (normTime time) s w (some (range2 K)) st0
          have htake : ((extTwo N C (normTime time) s w (some (range2 K)) st0).freq.take 3)
              = st0.freq := by
            rw [heq, List.take_left' hlen3]
          have hdrop : ((extTwo N C (normTime time) s w (some (range2 K)) st0).freq.drop 3)
              = ext := by
            rw [heq, List.drop_left' hlen3]
          refine ⟨?_, ?_, ?_⟩
          · intro h1false
            rw [htake, hr1] at h1false
            exact absurd h1false (by simp)
          · intro _ _ g hg
            rw [hdrop] at hg
            obtain ⟨mg, hmg⟩ := hget g hg
            have := get_significant_range hWF hmg
            simp [inRangeB, range2, this.1, this.2]
          · intro _ h2true
            rw [htake, hr2] at h2true
            exact absurd h2true (by simp)
        · next hr2 =>
          rw [Bool.not_eq_true', Bool.not_eq_false] at hr2
          exact absurd (by simp [hr1, hr2] : (st0.freq.any (inRangeB (range1 K)) &&
            st0.freq.any (inRangeB (range2 K))) = true) hcond

/-- C6, witness. -/
theorem C6_witness :
    ((trivOut.freq.take 3).any (inRangeB (range1 ℚ)) = false →
       ∀ g ∈ trivOut.freq.drop 3, inRangeB (range1 ℚ) g = true) ∧
    ((trivOut.freq.take 3).any (inRangeB (range1 ℚ)) = true →
     (trivOut.freq.take 3).any (inRangeB (range2 ℚ)) = false →
       ∀ g ∈ trivOut.freq.drop 3, inRangeB (range2 ℚ) g = true) ∧
    ((trivOut.freq.take 3).any (inRangeB (range1 ℚ)) = true →
     (trivOut.freq.take 3).any (inRangeB (range2 ℚ)) = true →
       ∀ st0, firstThree N0 C0 (normTime [0]) [0] = .ok st0 →
         trivOut.freq = (extTwo N0 C0 (normTime [0]) 3 (1 / 2) none st0).freq) :=
  C6_theorem
    (by
      intro p i hi
      simp only [C0] at hi
      split at hi
      · simp at hi
      · next hp =>
        simp only [List.mem_singleton] at hi
        subst hi
        omega)
    trivRun





theorem map_eraseIdx {β γ : Type} (f : β → γ) :
    ∀ (l : List β) (k : ℕ), (l.map f).eraseIdx k = (l.eraseIdx k).map f := by
  intro l
  induction l with
  | nil => intro k; simp
  | cons x xs ih =>
    intro k
    cases k with
    | zero => simp
    | succ k =>
      simp only [List.map_cons, List.eraseIdx_cons_succ, List.map_cons]
      rw [ih]

/-- Deleting at `np.argmax` of a boolean mask with at least one `true`
deletes the first entry satisfying the predicate. -/
theorem eraseIdx_argmaxBool_eq_eraseP {β : Type} (p : β → Bool) :
    ∀ l : List β, l.any p = true →
      l.eraseIdx (npArgmaxBool (l.map p)) = l.eraseP p := by
  intro l
  induction l with
  | nil => simp
  | cons x xs ih =>
    intro hany
    cases hpx : p x with
    | true => simp [npArgmaxBool, List.findIdx_cons, hpx]
    | false =>
      have hxs : xs.any p = true := by
        simpa [List.any_cons, hpx] using hany
      have hmap : (xs.map p).any id = true := by
        simpa [List.any_map, Function.id_comp] using hxs
      have hnp : npArgmaxBool ((x :: xs).map p) =
          List.findIdx id (xs.map p) + 1 := by
        simp [npArgmaxBool, List.map_cons, List.any_cons, hpx, hmap,
          List.findIdx_cons]
      rw [hnp, List.eraseIdx_cons_succ, List.eraseP_cons_of_neg (by simp [hpx])]
      have hnp2 : npArgmaxBool (xs.map p) = List.findIdx id (xs.map p) := by
        simp [npArgmaxBool, hmap]
      rw [← hnp2, ih hxs]

/-- C5: on a duplicate-free frequency grid (as the Lomb-Scargle grid is),
`calculate_snr` computes exactly the claimed quantity: peak power over the
mean power of the bins within `window_size` of the peak frequency
(inclusive), the peak bin itself excluded; and when that window is empty
the SNR is infinite (`none`), which never fails the `snr < threshold`
gate. -/
theorem C5_theorem (frequency power : List K) (fmaxIdx : ℕ) (ws : K)
    (hnodup : frequency.Nodup) (hidx : fmaxIdx < frequency.length)
    (hlen : frequency.length = power.length) (hws : 0 ≤ ws) :
    calculate_snr frequency power fmaxIdx ws =
      snrSpec frequency power fmaxIdx ws ∧
    (snrSpec frequency power fmaxIdx ws = none →
      ∀ th : K, npLtB (calculate_snr frequency power fmaxIdx ws) th = false) := by
  have hplen : (frequency.zip power).length = frequency.length := by
    rw [List.length_zip, hlen, Nat.min_self]
  have hpidx : fmaxIdx < (frequency.zip power).length := by
    rw [hplen]; exact hidx
  have hmapfst : (frequency.zip power).map Prod.fst = frequency :=
    List.map_fst_zip frequency power (le_of_eq hlen)
  have hefst : ((frequency.zip power).getD fmaxIdx (0, 0)).1 =
      frequency.getD fmaxIdx 0 := by
    rw [← getD_map_of_lt Prod.fst (frequency.zip power) fmaxIdx hpidx (0, 0) 0,
      hmapfst]
  have hdecomp : frequency.zip power =
      (frequency.zip power).take fmaxIdx ++
        (frequency.zip power).getD fmaxIdx (0, 0) ::
          (frequency.zip power).drop (fmaxIdx + 1) := by
    conv_lhs => rw [← List.take_append_drop fmaxIdx (frequency.zip power)]
    rw [List.drop_eq_getElem_cons hpidx,
      List.getD_eq_getElem (frequency.zip power) (0, 0) hpidx]
  have hltake : ((frequency.zip power).take fmaxIdx).length = fmaxIdx := by
    rw [List.length_take]
    exact Nat.min_eq_left hpidx.le
  -- the unique window entry at the peak frequency
  have hnd2 : (((frequency.zip power).take fmaxIdx).map Prod.fst ++
      frequency.getD fmaxIdx 0 ::
        ((frequency.zip power).drop (fmaxIdx + 1)).map Prod.fst).Nodup := by
    have := hnodup
    rw [← hmapfst, hdecomp, List.map_append, List.map_cons, hefst] at this
    exact this
  have hnotmem := (List.nodup_cons.mp (List.nodup_middle.mp hnd2)).1
  have hne1 : ∀ q ∈ (frequency.zip power).take fmaxIdx,
      ¬ q.1 = frequency.getD fmaxIdx 0 := by
    intro q hq hq1
    exact hnotmem (List.mem_append.mpr (Or.inl
      (hq1 ▸ List.mem_map_of_mem Prod.fst hq)))
  set w : K × K → Bool := fun q =>
    decide (frequency.getD fmaxIdx 0 - ws ≤ q.1 ∧
      q.1 ≤ frequency.getD fmaxIdx 0 + ws) with hw
  set p : K × K → Bool := fun q =>
    decide (q.1 = frequency.getD fmaxIdx 0) with hp
  have hwe : w ((frequency.zip power).getD fmaxIdx (0, 0)) = true := by
    rw [hw]
    refine decide_eq_true ?_
    rw [hefst]
    exact ⟨sub_le_self _ hws, le_add_of_nonneg_right hws⟩
  have hpe : p ((frequency.zip power).getD fmaxIdx (0, 0)) = true := by
    rw [hp]
    exact decide_eq_true hefst
  have hany : ((frequency.zip power).filter w).any p = true := by
    rw [List.any_eq_true]
    refine ⟨(frequency.zip power).getD fmaxIdx (0, 0), ?_, hpe⟩
    exact List.mem_filter.mpr ⟨getD_mem_of_lt _ _ hpidx (0, 0), hwe⟩
  have hnoise :
      ((((frequency.zip power).filter w).map Prod.snd).eraseIdx
        (npArgmaxBool (((frequency.zip power).filter w).map p)))
      = (((frequency.zip power).eraseIdx fmaxIdx).filter w).map Prod.snd := by
    rw [map_eraseIdx, eraseIdx_argmaxBool_eq_eraseP p _ hany]
    congr 1
    conv_lhs => rw [hdecomp]
    conv_rhs => rw [hdecomp]
    rw [List.filter_append,
      List.filter_cons_of_pos hwe,
      List.eraseP_append_right _ (by
        intro b hb
        have hbmem := List.mem_filter.mp hb
        rw [hp]
        simpa using hne1 b hbmem.1),
      List.eraseP_cons_of_pos hpe,
      List.eraseIdx_append_of_length_le (le_of_eq hltake), hltake,
      Nat.sub_self, List.eraseIdx_cons_zero, List.filter_append]
  have hmain : calculate_snr frequency power fmaxIdx ws =
      snrSpec frequency power fmaxIdx ws := by
    simp only [calculate_snr, snrSpec]
    rw [← hw, ← hp, hnoise]
  exact ⟨hmain, fun hnone th => by rw [hmain, hnone]; rfl⟩


/-- C5, witness: three bins `[1, 2, 3]` with powers `[1, 5, 1]`, peak at
index 1, window size 1: both computations give SNR `5`. -/
theorem C5_witness :
    calculate_snr (K := ℚ) [1, 2, 3] [1, 5, 1] 1 1 =
      snrSpec [1, 2, 3] [1, 5, 1] 1 1 ∧
    (snrSpec (K := ℚ) [1, 2, 3] [1, 5, 1] 1 1 = none →
      ∀ th : ℚ, npLtB (calculate_snr [1, 2, 3] [1, 5, 1] 1 1) th = false) :=
  C5_theorem [1, 2, 3] [1, 5, 1] 1 1 (by norm_num [List.nodup_cons])
    (by norm_num) (by norm_num) (by norm_num)





theorem chunk_keys (r : CResult K) (i : ℕ) :
    (chunk r i).map Prod.fst =
      [ampKey i 0, phKey i 0, ampKey i 1, phKey i 1, ampKey i 2, phKey i 2,
       ampKey i 3, phKey i 3] ++ (if 0 < i then [perKey i] else []) := by
  by_cases hi : i < r.freq.length <;> by_cases h0 : 0 < i <;>
    simp [chunk, hi, h0]

theorem components_freq_len {N : NumLib K} {C : Collab K} {mag time : List K}
    {s w : K} {r : CResult K} (h : components N C mag time s w = .ok r) :
    3 ≤ r.freq.length ∧ r.freq.length ≤ 5 := by
  obtain ⟨st0, st, h0, hst, -, -, -, hfq⟩ := components_ok h
  have h3 : st0.freq.length = 3 := (firstThree_shape h0).1
  rcases hst with rfl | ⟨fr, rfl⟩
  · rw [hfq, h3]
    omega
  · obtain ⟨ext, heq, hle, -⟩ := extTwo_freq N C (normTime time) s w fr st0
    rw [hfq, heq, List.length_append, h3]
    omega

theorem mem_assemble_of_mem_chunk {r : CResult K} {x : String × Option K}
    {i : ℕ} (hi : i < 5) (hx : x ∈ chunk r i) : x ∈ assemble r := by
  interval_cases i <;> simp only [assemble, List.mem_append] <;> tauto

/-- C7: a successful `fit` emits exactly the 44 feature keys
(`Freq{1..5}_harmonics_amplitude_{0..3}`, `Freq{1..5}_harmonics_rel_phase_{0..3}`,
`PeriodLS{2..5}`, and never `PeriodLS1`); each emitted period is the
reciprocal of its slot's frequency, and every field of every unpopulated
slot carries the missing marker `none`, never a number. -/
theorem C7_theorem {N : NumLib K} {C : Collab K} {mag time : List K}
    {r : CResult K} (h : components N C mag time 3 (1 / 2) = .ok r) :
    fit N C mag time = .ok (assemble r) ∧
    (assemble r).map Prod.fst = fcKeys ∧
    fcKeys.Nodup ∧
    "PeriodLS1" ∉ (assemble r).map Prod.fst ∧
    3 ≤ r.freq.length ∧ r.freq.length ≤ 5 ∧
    (∀ i : ℕ, 1 ≤ i → i < r.freq.length →
      (perKey i, some (1 / r.freq.getD i 0)) ∈ assemble r) ∧
    (∀ i : ℕ, r.freq.length ≤ i → i < 5 →
      (∀ j : ℕ, j < 4 →
        (ampKey i j, (none : Option K)) ∈ assemble r ∧
        (phKey i j, (none : Option K)) ∈ assemble r) ∧
      (1 ≤ i → (perKey i, (none : Option K)) ∈ assemble r)) := by
  obtain ⟨hge3, hle5⟩ := components_freq_len h
  have hkeys : (assemble r).map Prod.fst = fcKeys := by
    simp only [assemble, List.map_append, chunk_keys]
    norm_num
    rfl
  refine ⟨by simp only [fit, h], hkeys, by decide, by rw [hkeys]; decide,
    hge3, hle5, ?_, ?_⟩
  · intro i h1 hi
    have hi5 : i < 5 := lt_of_lt_of_le hi hle5
    refine mem_assemble_of_mem_chunk hi5 ?_
    have h0 : 0 < i := h1
    simp [chunk, hi, h0]
  · intro i hlen hi5
    have hnot : ¬ i < r.freq.length := by omega
    constructor
    · intro j hj
      constructor <;> refine mem_assemble_of_mem_chunk hi5 ?_ <;>
        interval_cases j <;> simp [chunk, hnot]
    · intro h1
      refine mem_assemble_of_mem_chunk hi5 ?_
      have h0 : 0 < i := h1
      simp [chunk, hnot, h0]

/-- C7, witness. -/
theorem C7_witness :
    fit N0 C0 [0] [0] = .ok (assemble trivOut) ∧
    (assemble trivOut).map Prod.fst = fcKeys ∧
    fcKeys.Nodup ∧
    "PeriodLS1" ∉ (assemble trivOut).map Prod.fst ∧
    3 ≤ trivOut.freq.length ∧ trivOut.freq.length ≤ 5 ∧
    (∀ i : ℕ, 1 ≤ i → i < trivOut.freq.length →
      (perKey i, some (1 / trivOut.freq.getD i 0)) ∈ assemble trivOut) ∧
    (∀ i : ℕ, trivOut.freq.length ≤ i → i < 5 →
      (∀ j : ℕ, j < 4 →
        (ampKey i j, (none : Option ℚ)) ∈ assemble trivOut ∧
        (phKey i j, (none : Option ℚ)) ∈ assemble trivOut) ∧
      (1 ≤ i → (perKey i, (none : Option ℚ)) ∈ assemble trivOut)) :=
  C7_theorem trivRun


end Feets
